import Mathlib

/-!
Verification of the retrieval-engine design of an open-source RAG pipeline
(LangChain + LLAMA 3 + Chroma notebook).  The notebook itself is glue around
library calls; the chunker, vector index and retriever it drives are not part
of the source tree, so those components are modelled from the design
specification (sections 3, 4, 7, 8) and the notebook's own configuration
values (chunk_size=2000, chunk_overlap=100, k=10) are embedded directly.
-/

namespace RAG

/-- Error kinds of the retrieval core (spec section 7). -/
inductive Error where
  | invalidConfig
  | providerUnavailable
  | dimensionMismatch
  | embeddingDimensionMismatch
  | ingestFailed
  | emptyIndex
deriving DecidableEq, Repr

/-- A raw document: text, source identifier and a metadata mapping
(spec section 3).  Text is modelled as a list of characters. -/
structure Document where
  text : List Char
  sourceId : Nat
  metadata : List (String × String)
deriving DecidableEq, Repr

/-- A contiguous substring of a document's text with character offsets and
the metadata inherited from the document (spec section 3). -/
structure Fragment where
  text : List Char
  sourceId : Nat
  startOffset : Nat
  endOffset : Nat
  metadata : List (String × String)
deriving DecidableEq, Repr

/-- Modelled from the spec: the chunking configuration of section 4.1.  The
repository calls a library text splitter whose implementation is not in the
source tree; parameters are integers as in the source call site
RecursiveCharacterTextSplitter(chunk_size=2000, chunk_overlap=100). -/
structure ChunkConfig where
  chunkSize : Int
  overlap : Int
deriving DecidableEq, Repr

namespace Chunker

/-- Modelled from the spec: the offset windows of the chunker (spec section
4.1).  A window starting at `start` ends `c` characters later, capped at the
text length `n`; the next window starts `o` characters before the previous
window's end, and windows stop once a window reaches the end of the text.
The fuel argument bounds the recursion; `n` is always enough fuel when
`o < c`. -/
def windows (n c o : Nat) : Nat → Nat → List (Nat × Nat)
  | _, 0 => []
  | start, fuel + 1 =>
    if start < n then
      if start + c < n then
        (start, start + c) :: windows n c o (start + c - o) fuel
      else
        [(start, n)]
    else []

/-- Modelled from the spec: build the fragment for one offset window,
copying the document's metadata at creation time (spec section 3). -/
def mkFragment (doc : Document) (p : Nat × Nat) : Fragment :=
  { text := (doc.text.drop p.1).take (p.2 - p.1)
    sourceId := doc.sourceId
    startOffset := p.1
    endOffset := p.2
    metadata := doc.metadata }

/-- Modelled from the spec: `Chunker.split` (spec section 4.1).  Fails with
`InvalidConfig` iff `overlap ≥ chunkSize` or `chunkSize ≤ 0`; otherwise
produces the fragments of the sliding windows. -/
def split (doc : Document) (cfg : ChunkConfig) : Except Error (List Fragment) :=
  if cfg.overlap ≥ cfg.chunkSize ∨ cfg.chunkSize ≤ 0 then
    Except.error Error.invalidConfig
  else
    Except.ok
      ((windows doc.text.length cfg.chunkSize.toNat cfg.overlap.toNat
          0 doc.text.length).map (mkFragment doc))

/-- Concatenation of a fragment sequence with the overlapping `o`-character
prefix of every fragment after the first removed. -/
def reassemble (o : Nat) : List Fragment → List Char
  | [] => []
  | f :: rest => f.text ++ (rest.map (fun g => g.text.drop o)).flatten

/-- Every window is nonempty and ends `c` characters after its start,
capped at the text length. -/
theorem windows_mem (n c o : Nat) (ho : o < c) :
    ∀ fuel start, ∀ p ∈ windows n c o start fuel,
      p.1 < p.2 ∧ p.2 = min (p.1 + c) n
  | 0, start => by simp [windows]
  | fuel + 1, start => by
    simp only [windows]
    by_cases h1 : start < n
    · rw [if_pos h1]
      by_cases hc : start + c < n
      · rw [if_pos hc]
        intro p hp
        rcases List.mem_cons.mp hp with h | h
        · subst h
          constructor
          · omega
          · omega
        · exact windows_mem n c o ho fuel (start + c - o) p h
      · rw [if_neg hc]
        intro p hp
        rcases List.mem_cons.mp hp with h | h
        · subst h
          constructor
          · omega
          · omega
        · simp at h
    · rw [if_neg h1]
      intro p hp
      simp at hp

/-- The first window of a nonempty window list starts at `start`. -/
theorem windows_head_fst (n c o : Nat) :
    ∀ fuel start p rest, windows n c o start fuel = p :: rest → p.1 = start := by
  intro fuel
  cases fuel with
  | zero => intro start p rest h; simp [windows] at h
  | succ fuel =>
    intro start p rest h
    simp only [windows] at h
    by_cases h1 : start < n
    · rw [if_pos h1] at h
      by_cases hc : start + c < n
      · rw [if_pos hc] at h
        injection h with ha hb
        rw [← ha]
      · rw [if_neg hc] at h
        injection h with ha hb
        rw [← ha]
    · rw [if_neg h1] at h
      cases h

/-- Consecutive windows overlap by exactly `o` characters: the next window
starts `o` characters before the previous window's end. -/
theorem windows_chain (n c o : Nat) (ho : o < c) :
    ∀ fuel start, List.Chain' (fun p q => q.1 + o = p.2) (windows n c o start fuel)
  | 0, start => by simp [windows]
  | fuel + 1, start => by
    simp only [windows]
    by_cases h1 : start < n
    · rw [if_pos h1]
      by_cases hc : start + c < n
      · rw [if_pos hc]
        refine List.Chain'.cons' (windows_chain n c o ho fuel (start + c - o)) ?_
        intro q hq
        rcases hw : windows n c o (start + c - o) fuel with _ | ⟨p', rest'⟩
        · rw [hw] at hq; simp at hq
        · rw [hw] at hq
          simp at hq
          subst hq
          have := windows_head_fst n c o fuel (start + c - o) p' rest' hw
          omega
      · rw [if_neg hc]
        simp
    · rw [if_neg h1]
      simp

/-- Dropping the overlap prefix from every window's text and concatenating
yields the source text from position `start + o` on. -/
theorem windows_drop_join (s : List Char) (c o : Nat) (ho : o < c) :
    ∀ fuel start, start < s.length → s.length - start ≤ fuel →
      ((windows s.length c o start fuel).map
        (fun p => ((s.drop p.1).take (p.2 - p.1)).drop o)).flatten = s.drop (start + o)
  | 0, start, h1, h2 => absurd h2 (by omega)
  | fuel + 1, start, h1, h2 => by
    simp only [windows, if_pos h1]
    by_cases hc : start + c < s.length
    · rw [if_pos hc]
      rw [List.map_cons, List.flatten_cons]
      rw [windows_drop_join s c o ho fuel (start + c - o) (by omega) (by omega)]
      have e1 : start + c - o + o = start + c := by omega
      rw [e1]
      have e2 : start + c - start = c := by omega
      rw [e2]
      have e3 : ((s.drop start).take c).drop o = (s.drop (start + o)).take (c - o) := by
        rw [List.drop_take, List.drop_drop]
      have e4 : s.drop (start + c) = (s.drop (start + o)).drop (c - o) := by
        rw [List.drop_drop]
        congr 1
        omega
      rw [e3, e4]
      exact List.take_append_drop (c - o) (s.drop (start + o))
    · rw [if_neg hc]
      simp only [List.map_cons, List.map_nil, List.flatten_cons, List.flatten_nil,
        List.append_nil]
      have e1 : (s.drop start).take (s.length - start) = s.drop start := by
        apply List.take_of_length_le
        simp
      rw [e1, List.drop_drop]

/-- The windows from `start` reassemble (first text kept whole, later texts
with the overlap prefix dropped) to the source text from position `start`. -/
theorem windows_reassemble (s : List Char) (c o : Nat) (ho : o < c)
    (fuel start : Nat) (h1 : start < s.length) (h2 : s.length - start ≤ fuel) :
    ∃ p rest, windows s.length c o start fuel = p :: rest ∧
      (s.drop p.1).take (p.2 - p.1) ++
        (rest.map (fun q => ((s.drop q.1).take (q.2 - q.1)).drop o)).flatten =
        s.drop start := by
  cases fuel with
  | zero => omega
  | succ fuel =>
    simp only [windows, if_pos h1]
    by_cases hc : start + c < s.length
    · rw [if_pos hc]
      refine ⟨(start, start + c), _, rfl, ?_⟩
      rw [windows_drop_join s c o ho fuel (start + c - o) (by omega) (by omega)]
      have e1 : start + c - o + o = start + c := by omega
      rw [e1]
      have e2 : start + c - start = c := by omega
      rw [e2]
      have e4 : s.drop (start + c) = (s.drop start).drop c := by
        rw [List.drop_drop]
      rw [e4]
      exact List.take_append_drop c (s.drop start)
    · rw [if_neg hc]
      refine ⟨(start, s.length), [], rfl, ?_⟩
      simp only [List.map_nil, List.flatten_nil, List.append_nil]
      apply List.take_of_length_le
      simp

end Chunker

/-- C1: for every document and every configuration with
`chunkSize > overlap ≥ 0`, `Chunker.split` succeeds and the produced
fragments are offset-accurate (each fragment's text is the substring of the
document at its offsets, with `start < end ≤ length`), contiguous with the
claimed overlap (each subsequent fragment starts `overlap` characters before
the previous fragment's end), and reassembling the fragments with the
overlapping prefixes removed reconstructs the document text exactly. -/
theorem split_contiguous_round_trip (doc : Document) (cfg : ChunkConfig)
    (h0 : 0 ≤ cfg.overlap) (h1 : cfg.overlap < cfg.chunkSize) :
    ∃ frags, Chunker.split doc cfg = Except.ok frags ∧
      (∀ f ∈ frags, f.startOffset < f.endOffset ∧ f.endOffset ≤ doc.text.length ∧
        f.text = (doc.text.drop f.startOffset).take (f.endOffset - f.startOffset)) ∧
      List.Chain' (fun f g => g.startOffset + cfg.overlap.toNat = f.endOffset) frags ∧
      Chunker.reassemble cfg.overlap.toNat frags = doc.text := by
  have hvalid : ¬(cfg.overlap ≥ cfg.chunkSize ∨ cfg.chunkSize ≤ 0) := by omega
  have ho : cfg.overlap.toNat < cfg.chunkSize.toNat := by omega
  refine ⟨_, by rw [Chunker.split, if_neg hvalid], ?_, ?_, ?_⟩
  · intro f hf
    rcases List.mem_map.mp hf with ⟨p, hp, hfp⟩
    have := Chunker.windows_mem doc.text.length cfg.chunkSize.toNat cfg.overlap.toNat
      ho doc.text.length 0 p hp
    subst hfp
    simp only [Chunker.mkFragment]
    exact ⟨this.1, by omega, trivial⟩
  · rw [List.chain'_map]
    exact Chunker.windows_chain doc.text.length cfg.chunkSize.toNat cfg.overlap.toNat
      ho doc.text.length 0
  · rcases Nat.eq_zero_or_pos doc.text.length with hn | hn
    · rw [hn]
      simp only [Chunker.windows, List.map_nil]
      rw [Chunker.reassemble]
      exact (List.length_eq_zero.mp hn).symm
    · rcases Chunker.windows_reassemble doc.text cfg.chunkSize.toNat cfg.overlap.toNat
        ho doc.text.length 0 hn (by omega) with ⟨p, rest, hw, hjoin⟩
      rw [hw, List.map_cons, Chunker.reassemble]
      simp only [Chunker.mkFragment]
      rw [List.map_map]
      have : ((fun g : Fragment => g.text.drop cfg.overlap.toNat) ∘ Chunker.mkFragment doc) =
          (fun q : Nat × Nat =>
            ((doc.text.drop q.1).take (q.2 - q.1)).drop cfg.overlap.toNat) := by
        funext q
        rfl
      rw [this, hjoin, List.drop_zero]

/-- C4: under a valid configuration, a nonempty document whose length is at
most `chunkSize` yields exactly one fragment equal to the full text, and the
zero-length document yields the empty fragment sequence, not an error. -/
theorem split_short_doc (doc : Document) (cfg : ChunkConfig)
    (h0 : 0 ≤ cfg.overlap) (h1 : cfg.overlap < cfg.chunkSize) :
    (0 < doc.text.length → (doc.text.length : Int) ≤ cfg.chunkSize →
      Chunker.split doc cfg = Except.ok
        [{ text := doc.text, sourceId := doc.sourceId, startOffset := 0,
           endOffset := doc.text.length, metadata := doc.metadata }]) ∧
    (doc.text.length = 0 → Chunker.split doc cfg = Except.ok []) := by
  have hvalid : ¬(cfg.overlap ≥ cfg.chunkSize ∨ cfg.chunkSize ≤ 0) := by omega
  constructor
  · intro hpos hlen
    have hcap : ¬(0 + cfg.chunkSize.toNat < doc.text.length) := by omega
    rw [Chunker.split, if_neg hvalid]
    obtain ⟨m, hm⟩ : ∃ m, doc.text.length = m + 1 := ⟨doc.text.length - 1, by omega⟩
    rw [hm] at hcap ⊢
    simp only [Chunker.windows]
    rw [if_pos (by omega : 0 < m + 1), if_neg hcap]
    simp only [List.map_cons, List.map_nil, Chunker.mkFragment]
    have htake : (doc.text.drop 0).take (m + 1 - 0) = doc.text := by
      rw [List.drop_zero, Nat.sub_zero]
      exact List.take_of_length_le (by omega)
    rw [htake]
  · intro hzero
    rw [Chunker.split, if_neg hvalid, hzero]
    simp [Chunker.windows]

/-- C4 witness: the three-character document with chunkSize 4, overlap 1
yields exactly the one full-text fragment. -/
theorem split_short_doc_witness :
    Chunker.split ⟨['a', 'b', 'c'], 7, [("k", "v")]⟩ ⟨4, 1⟩ =
      Except.ok [⟨['a', 'b', 'c'], 7, 0, 3, [("k", "v")]⟩] :=
  (split_short_doc ⟨['a', 'b', 'c'], 7, [("k", "v")]⟩ ⟨4, 1⟩ (by decide) (by decide)).1
    (by decide) (by decide)

/-- C5: `Chunker.split` fails with `InvalidConfig` exactly when the
configuration is invalid (`overlap ≥ chunkSize` or `chunkSize ≤ 0`), and for
every valid configuration it succeeds. -/
theorem split_invalid_config_iff (doc : Document) (cfg : ChunkConfig) :
    (Chunker.split doc cfg = Except.error Error.invalidConfig ↔
      cfg.overlap ≥ cfg.chunkSize ∨ cfg.chunkSize ≤ 0) ∧
    (¬(cfg.overlap ≥ cfg.chunkSize ∨ cfg.chunkSize ≤ 0) →
      ∃ frags, Chunker.split doc cfg = Except.ok frags) := by
  refine ⟨⟨fun h => ?_, fun hv => by rw [Chunker.split, if_pos hv]⟩, fun hv => ?_⟩
  · by_contra hv
    rw [Chunker.split, if_neg hv] at h
    cases h
  · exact ⟨_, by rw [Chunker.split, if_neg hv]⟩

/-- C5 witness: overlap 2 with chunkSize 2 is rejected with InvalidConfig. -/
theorem split_invalid_config_iff_witness :
    Chunker.split ⟨['a'], 0, []⟩ ⟨2, 2⟩ = Except.error Error.invalidConfig :=
  (split_invalid_config_iff ⟨['a'], 0, []⟩ ⟨2, 2⟩).1.mpr (by decide)

/-- C9: every fragment produced by `Chunker.split` carries the metadata of
its originating document, copied at creation time. -/
theorem fragment_metadata_inherited (doc : Document) (cfg : ChunkConfig)
    (frags : List Fragment) (hok : Chunker.split doc cfg = Except.ok frags) :
    ∀ f ∈ frags, f.metadata = doc.metadata := by
  intro f hf
  rw [Chunker.split] at hok
  by_cases hv : cfg.overlap ≥ cfg.chunkSize ∨ cfg.chunkSize ≤ 0
  · rw [if_pos hv] at hok
    cases hok
  · rw [if_neg hv] at hok
    injection hok with h
    subst h
    rcases List.mem_map.mp hf with ⟨p, hp, hfp⟩
    rw [← hfp]
    rfl

/-- C9 witness: a document with a non-empty metadata mapping; the first
fragment of its split carries that same metadata. -/
theorem fragment_metadata_inherited_witness :
    (⟨['a', 'b', 'c', 'd'], 1, 0, 4, [("source", "docA")]⟩ : Fragment).metadata =
      (⟨['a', 'b', 'c', 'd', 'e'], 1, [("source", "docA")]⟩ : Document).metadata :=
  fragment_metadata_inherited ⟨['a', 'b', 'c', 'd', 'e'], 1, [("source", "docA")]⟩ ⟨4, 1⟩
    _ rfl ⟨['a', 'b', 'c', 'd'], 1, 0, 4, [("source", "docA")]⟩ (by decide)

/-- One stored entry of the vector index: a fragment, its embedding, and the
stable integer id assigned at insertion time (spec section 3).  Embedding
coordinates are modelled as integers (exact stand-ins for the floating-point coordinates of the spec). -/
structure IndexEntry where
  id : Nat
  fragment : Fragment
  embedding : List Int
deriving DecidableEq, Repr

/-- Modelled from the spec: the vector index state (spec section 4.3) — the
configured similarity metric (fixed at construction), the established
embedding dimension (validated at first insert), the stored entries in
insertion order, and the next id to assign.  The repository uses a library
vector store whose implementation is not in the source tree. -/
structure VectorIndex where
  metric : List Int → List Int → Int
  dim : Option Nat
  entries : List IndexEntry
  nextId : Nat

/-- Dot-product similarity, one of the acceptable metric configurations of
spec section 4.3, exact over the integers. -/
def dotProduct (u v : List Int) : Int :=
  ((u.zip v).map (fun p => p.1 * p.2)).sum

/-- Current entry count (spec section 4.3). -/
def VectorIndex.size (i : VectorIndex) : Nat := i.entries.length

/-- Whether an embedding's dimension mismatches the index's established
dimension; before the first insert no dimension is established. -/
def VectorIndex.dimMismatch (i : VectorIndex) (e : List Int) : Bool :=
  match i.dim with
  | some d => e.length != d
  | none => false

/-- Modelled from the spec: `insert` (spec section 4.3) appends one entry and
assigns it the next stable id, unless the embedding dimension mismatches the
established dimension, in which case it fails with DimensionMismatch and
returns the index unchanged. -/
def VectorIndex.insert (i : VectorIndex) (f : Fragment) (e : List Int) :
    Except Error Nat × VectorIndex :=
  if i.dimMismatch e then (Except.error Error.dimensionMismatch, i)
  else
    (Except.ok i.nextId,
      { i with
          dim := some e.length
          entries := i.entries ++ [⟨i.nextId, f, e⟩]
          nextId := i.nextId + 1 })

/-- The dimension a batch must satisfy: the established dimension if there is
one, otherwise the first batch entry's dimension. -/
def VectorIndex.batchDim (i : VectorIndex) (es : List (Fragment × List Int)) : Nat :=
  match i.dim with
  | some d => d
  | none =>
    match es with
    | [] => 0
    | (_, e) :: _ => e.length

/-- Whether any batch entry fails the up-front dimension validation. -/
def VectorIndex.batchMismatch (i : VectorIndex) (es : List (Fragment × List Int)) : Bool :=
  ! es.all (fun p => p.2.length == i.batchDim es)

/-- The index entries created for a batch, with consecutive ids from `n`. -/
def VectorIndex.mkEntries : Nat → List (Fragment × List Int) → List IndexEntry
  | _, [] => []
  | n, (f, e) :: rest => ⟨n, f, e⟩ :: VectorIndex.mkEntries (n + 1) rest

/-- Modelled from the spec: `insertBatch` (spec section 4.3) validates all
entries up front against the index dimension; either all entries are
inserted, or the batch fails with DimensionMismatch and the index is
unchanged — partial successes are not observable. -/
def VectorIndex.insertBatch (i : VectorIndex) (es : List (Fragment × List Int)) :
    Except Error (List Nat) × VectorIndex :=
  if i.batchMismatch es then (Except.error Error.dimensionMismatch, i)
  else
    (Except.ok ((List.range es.length).map (fun j => i.nextId + j)),
      { i with
          dim := if es.isEmpty then i.dim else some (i.batchDim es)
          entries := i.entries ++ VectorIndex.mkEntries i.nextId es
          nextId := i.nextId + es.length })

/-- Descending-score order on scored entries: `a` precedes `b` when `b`'s
similarity is at most `a`'s. -/
def scoreGe (a b : IndexEntry × Int) : Prop := b.2 ≤ a.2

instance : DecidableRel scoreGe :=
  fun a b => inferInstanceAs (Decidable (b.2 ≤ a.2))

instance : IsTotal (IndexEntry × Int) scoreGe :=
  ⟨fun a b => le_total b.2 a.2⟩

instance : IsTrans (IndexEntry × Int) scoreGe :=
  ⟨fun _ _ _ hab hbc => le_trans hbc hab⟩

/-- Every stored entry paired with its similarity to the query, in insertion
order (the brute-force scan of spec section 4.3). -/
def VectorIndex.scored (i : VectorIndex) (q : List Int) : List (IndexEntry × Int) :=
  i.entries.map (fun e => (e, i.metric q e.embedding))

/-- Modelled from the spec: all scored entries ranked by descending
similarity with a stable sort, so equal scores keep insertion order
(spec sections 3 and 4.3). -/
def VectorIndex.rank (i : VectorIndex) (q : List Int) : List (IndexEntry × Int) :=
  List.insertionSort scoreGe (i.scored q)

/-- Modelled from the spec: `search` (spec section 4.3) returns the top `k`
ranked entries; `k` larger than the index size returns all entries. -/
def VectorIndex.search (i : VectorIndex) (q : List Int) (k : Nat) :
    List (IndexEntry × Int) :=
  (i.rank q).take k

theorem rank_perm_scored (i : VectorIndex) (q : List Int) :
    (i.rank q).Perm (i.scored q) :=
  List.perm_insertionSort scoreGe (i.scored q)

theorem scored_map_fst (i : VectorIndex) (q : List Int) :
    (i.scored q).map Prod.fst = i.entries := by
  rw [VectorIndex.scored, List.map_map]
  exact List.map_id i.entries

theorem rank_length (i : VectorIndex) (q : List Int) :
    (i.rank q).length = i.size := by
  rw [(rank_perm_scored i q).length_eq]
  simp [VectorIndex.scored, VectorIndex.size]

theorem search_eq_rank (i : VectorIndex) (q : List Int) (k : Nat)
    (hk : i.size ≤ k) : i.search q k = i.rank q := by
  rw [VectorIndex.search]
  exact List.take_of_length_le (by rw [rank_length]; omega)

theorem rank_pairwise (i : VectorIndex) (q : List Int) :
    (i.rank q).Pairwise (fun a b : IndexEntry × Int => b.2 ≤ a.2) :=
  (List.sorted_insertionSort scoreGe (i.scored q)).imp (fun h => h)

theorem mem_search_of_mem_entries (i : VectorIndex) (q : List Int) (k : Nat)
    (hk : i.size ≤ k) (E : IndexEntry) (hE : E ∈ i.entries) :
    E ∈ (i.search q k).map Prod.fst := by
  rw [search_eq_rank i q k hk]
  refine ((rank_perm_scored i q).map Prod.fst).mem_iff.mpr ?_
  rw [scored_map_fst]
  exact hE

/-- C2: for every index state and query, `search` with `k` at least the
index size is not an error: it returns all stored entries (a permutation of
the entry list, of full length) ordered by descending similarity under the
configured metric. -/
theorem search_k_ge_size_returns_all (i : VectorIndex) (q : List Int) (k : Nat)
    (hk : i.size ≤ k) :
    (i.search q k).length = i.size ∧
    ((i.search q k).map Prod.fst).Perm i.entries ∧
    (i.search q k).Pairwise (fun a b : IndexEntry × Int => b.2 ≤ a.2) := by
  rw [search_eq_rank i q k hk]
  refine ⟨rank_length i q, ?_, rank_pairwise i q⟩
  have := (rank_perm_scored i q).map Prod.fst
  rw [scored_map_fst] at this
  exact this

/-- A one-character fragment used as concrete test data. -/
def frag0 : Fragment := ⟨['a'], 0, 0, 1, []⟩

/-- An empty index configured with the dot-product metric. -/
def idxEmpty : VectorIndex := ⟨dotProduct, none, [], 0⟩

/-- An index holding two entries with identical embeddings, so every query
scores them equally. -/
def idxTies : VectorIndex := ⟨dotProduct, some 1, [⟨0, frag0, [2]⟩, ⟨1, frag0, [2]⟩], 2⟩

/-- An empty index whose established dimension is 2. -/
def idxDim2 : VectorIndex := ⟨dotProduct, some 2, [], 0⟩

/-- C2 witness: searching the two-entry index with k = 5 returns both
entries, ordered by descending similarity. -/
theorem search_k_ge_size_returns_all_witness :
    (idxTies.search [1] 5).length = idxTies.size ∧
    ((idxTies.search [1] 5).map Prod.fst).Perm idxTies.entries ∧
    (idxTies.search [1] 5).Pairwise (fun a b : IndexEntry × Int => b.2 ≤ a.2) :=
  search_k_ge_size_returns_all idxTies [1] 5 (by decide)

/-- C3: for a fixed index state and fixed query, repeated `search` calls
return identical ordered results; the result is ranked by descending score,
and entries with equal scores keep their insertion order in the ranking
(earliest-inserted wins), because the ranking is a stable sort of the
insertion-ordered scored entries. -/
theorem search_deterministic_stable (i : VectorIndex) (q : List Int) (k : Nat) :
    i.search q k = i.search q k ∧
    (i.search q k).Pairwise (fun a b : IndexEntry × Int => b.2 ≤ a.2) ∧
    (∀ a b : IndexEntry × Int, a.2 = b.2 → [a, b].Sublist (i.scored q) →
      [a, b].Sublist (i.rank q)) := by
  refine ⟨rfl, ?_, ?_⟩
  · exact (rank_pairwise i q).sublist (List.take_sublist k (i.rank q))
  · intro a b hab hsub
    simp only [VectorIndex.rank]
    exact List.pair_sublist_insertionSort (le_of_eq hab.symm) hsub

/-- C3 witness: in the two-entry index with tied scores, the two entries
appear in the ranking in insertion order. -/
theorem search_deterministic_stable_witness :
    [((⟨0, frag0, [2]⟩ : IndexEntry), (2 : Int)),
     ((⟨1, frag0, [2]⟩ : IndexEntry), (2 : Int))].Sublist (idxTies.rank [1]) :=
  (search_deterministic_stable idxTies [1] 2).2.2
    (⟨0, frag0, [2]⟩, 2) (⟨1, frag0, [2]⟩, 2) rfl (by decide)

theorem mkEntries_length : ∀ (n : Nat) (es : List (Fragment × List Int)),
    (VectorIndex.mkEntries n es).length = es.length
  | _, [] => rfl
  | n, _ :: rest => by
    simp only [VectorIndex.mkEntries, List.length_cons, mkEntries_length (n + 1) rest]

/-- C6: an `insert` whose embedding dimension mismatches the established
dimension fails with DimensionMismatch and returns the index unchanged; an
`insertBatch` with any mismatching entry fails with DimensionMismatch and
returns the index unchanged; a batch that validates up front succeeds and
appends every entry (all-or-nothing). -/
theorem insert_dimension_mismatch_atomic (i : VectorIndex) :
    (∀ f e, i.dimMismatch e = true →
      i.insert f e = (Except.error Error.dimensionMismatch, i)) ∧
    (∀ es, i.batchMismatch es = true →
      i.insertBatch es = (Except.error Error.dimensionMismatch, i)) ∧
    (∀ es, i.batchMismatch es = false →
      (∃ ids, (i.insertBatch es).1 = Except.ok ids) ∧
      (i.insertBatch es).2.entries = i.entries ++ VectorIndex.mkEntries i.nextId es ∧
      (i.insertBatch es).2.size = i.size + es.length) := by
  refine ⟨fun f e h => ?_, fun es h => ?_, fun es h => ?_⟩
  · rw [VectorIndex.insert, if_pos (by rw [h])]
  · rw [VectorIndex.insertBatch, if_pos (by rw [h])]
  · rw [VectorIndex.insertBatch, if_neg (by rw [h]; exact Bool.false_ne_true)]
    exact ⟨⟨_, rfl⟩, rfl, by simp [VectorIndex.size, mkEntries_length]⟩

/-- C6 witness: a 1-dimensional embedding is rejected by the dimension-2
index and leaves it unchanged; a batch with one bad entry is rejected whole;
a valid 2-entry batch grows the index by exactly 2. -/
theorem insert_dimension_mismatch_atomic_witness :
    idxDim2.insert frag0 [1] = (Except.error Error.dimensionMismatch, idxDim2) ∧
    idxDim2.insertBatch [(frag0, [1, 2]), (frag0, [3])] =
      (Except.error Error.dimensionMismatch, idxDim2) ∧
    (idxDim2.insertBatch [(frag0, [1, 2]), (frag0, [7, 8])]).2.size =
      idxDim2.size + 2 :=
  ⟨(insert_dimension_mismatch_atomic idxDim2).1 frag0 [1] (by decide),
   (insert_dimension_mismatch_atomic idxDim2).2.1 [(frag0, [1, 2]), (frag0, [3])] (by decide),
   ((insert_dimension_mismatch_atomic idxDim2).2.2 [(frag0, [1, 2]), (frag0, [7, 8])]
      (by decide)).2.2⟩

/-- C8: inserting the same (fragment, embedding) pair twice (with a matching
dimension) succeeds both times with distinct ids, grows `size` by exactly 2
— no implicit deduplication — and both copies are retrievable by `search`
for every sufficiently large `k`. -/
theorem insert_duplicate_no_dedup (i : VectorIndex) (f : Fragment) (e : List Int)
    (h : i.dimMismatch e = false) (q : List Int) :
    ∃ i1 i2,
      i.insert f e = (Except.ok i.nextId, i1) ∧
      i1.insert f e = (Except.ok (i.nextId + 1), i2) ∧
      i2.size = i.size + 2 ∧
      ∀ k, i2.size ≤ k →
        (⟨i.nextId, f, e⟩ : IndexEntry) ∈ (i2.search q k).map Prod.fst ∧
        (⟨i.nextId + 1, f, e⟩ : IndexEntry) ∈ (i2.search q k).map Prod.fst := by
  refine ⟨⟨i.metric, some e.length, i.entries ++ [⟨i.nextId, f, e⟩], i.nextId + 1⟩,
    ⟨i.metric, some e.length,
      (i.entries ++ [⟨i.nextId, f, e⟩]) ++ [⟨i.nextId + 1, f, e⟩], i.nextId + 1 + 1⟩,
    ?_, ?_, ?_, ?_⟩
  · rw [VectorIndex.insert, if_neg (by rw [h]; exact Bool.false_ne_true)]
  · rw [VectorIndex.insert,
      if_neg (by simp [VectorIndex.dimMismatch])]
  · simp [VectorIndex.size]
  · intro k hk
    constructor
    · exact mem_search_of_mem_entries _ q k hk _ (by simp)
    · exact mem_search_of_mem_entries _ q k hk _ (by simp)

/-- C8 witness: inserting the same pair twice into the empty index yields
ids 0 and 1, size 2, and both copies retrievable. -/
theorem insert_duplicate_no_dedup_witness :
    ∃ i1 i2,
      idxEmpty.insert frag0 [1, 2] = (Except.ok idxEmpty.nextId, i1) ∧
      i1.insert frag0 [1, 2] = (Except.ok (idxEmpty.nextId + 1), i2) ∧
      i2.size = idxEmpty.size + 2 ∧
      ∀ k, i2.size ≤ k →
        (⟨idxEmpty.nextId, frag0, [1, 2]⟩ : IndexEntry) ∈
          (i2.search [1, 0] k).map Prod.fst ∧
        (⟨idxEmpty.nextId + 1, frag0, [1, 2]⟩ : IndexEntry) ∈
          (i2.search [1, 0] k).map Prod.fst :=
  insert_duplicate_no_dedup idxEmpty frag0 [1, 2] (by decide) [1, 0]

/-- A per-document ingestion failure record: the failing document's source
identifier and the underlying cause (spec sections 4.4 and 7). -/
structure IngestFailure where
  sourceId : Nat
  cause : Error
deriving DecidableEq, Repr

/-- Modelled from the spec: chunk one document and embed all its fragments
as one batch call to the embedding provider (spec section 4.4), propagating
a chunking or embedding failure.  The repository drives a library retriever
whose implementation is not in the source tree. -/
def docFragments (embed : List (List Char) → Except Error (List (List Int)))
    (cfg : ChunkConfig) (doc : Document) :
    Except Error (List (Fragment × List Int)) :=
  match Chunker.split doc cfg with
  | Except.error e => Except.error e
  | Except.ok frags =>
    match embed (frags.map Fragment.text) with
    | Except.error e => Except.error e
    | Except.ok embs => Except.ok (frags.zip embs)

/-- Modelled from the spec: process one document during ingestion — on a
chunking/embedding failure record an IngestFailed with the document's
sourceId and cause and leave the index alone; otherwise insert the batch
(which itself is atomic). -/
def ingestDoc (embed : List (List Char) → Except Error (List (List Int)))
    (cfg : ChunkConfig) (i : VectorIndex) (doc : Document) :
    Nat × Option IngestFailure × VectorIndex :=
  match docFragments embed cfg doc with
  | Except.error e => (0, some ⟨doc.sourceId, e⟩, i)
  | Except.ok pairs =>
    match i.insertBatch pairs with
    | (Except.error e, i1) => (0, some ⟨doc.sourceId, e⟩, i1)
    | (Except.ok _, i1) => (pairs.length, none, i1)

/-- Modelled from the spec: `Retriever.ingest` (spec section 4.4) processes
every document, collecting the count of successfully indexed fragments and
the per-document failures; a failing document does not abort the call. -/
def ingest (embed : List (List Char) → Except Error (List (List Int)))
    (cfg : ChunkConfig) :
    VectorIndex → List Document → Nat × List IngestFailure × VectorIndex
  | i, [] => (0, [], i)
  | i, doc :: rest =>
    let d := ingestDoc embed cfg i doc
    let r := ingest embed cfg d.2.2 rest
    (d.1 + r.1, d.2.1.toList ++ r.2.1, r.2.2)

/-- C7: a document whose chunking or embedding fails contributes exactly one
IngestFailed record carrying its sourceId and cause, at its position among
the failures; the other documents are processed exactly as if the failing
document were absent: same successful-fragment count and same final index,
so the index contains only fragments of documents that succeeded. -/
theorem ingest_per_document_failure
    (embed : List (List Char) → Except Error (List (List Int)))
    (cfg : ChunkConfig) (i : VectorIndex) (pre post : List Document)
    (bad : Document) (cause : Error)
    (hbad : docFragments embed cfg bad = Except.error cause) :
    (ingest embed cfg i (pre ++ bad :: post)).1 =
      (ingest embed cfg i (pre ++ post)).1 ∧
    (ingest embed cfg i (pre ++ bad :: post)).2.2 =
      (ingest embed cfg i (pre ++ post)).2.2 ∧
    ∃ fsA fsB,
      (ingest embed cfg i (pre ++ post)).2.1 = fsA ++ fsB ∧
      (ingest embed cfg i (pre ++ bad :: post)).2.1 =
        fsA ++ (⟨bad.sourceId, cause⟩ : IngestFailure) :: fsB := by
  induction pre generalizing i with
  | nil =>
    refine ⟨?_, ?_, [], (ingest embed cfg i post).2.1, rfl, ?_⟩ <;>
      simp [ingest, ingestDoc, hbad]
  | cons doc pre ih =>
    rcases ih (ingestDoc embed cfg i doc).2.2 with ⟨h1, h2, fsA, fsB, hA, hB⟩
    refine ⟨?_, ?_, (ingestDoc embed cfg i doc).2.1.toList ++ fsA, fsB, ?_, ?_⟩
    · show (ingestDoc embed cfg i doc).1 +
          (ingest embed cfg (ingestDoc embed cfg i doc).2.2 (pre ++ bad :: post)).1 =
        (ingestDoc embed cfg i doc).1 +
          (ingest embed cfg (ingestDoc embed cfg i doc).2.2 (pre ++ post)).1
      rw [h1]
    · show (ingest embed cfg (ingestDoc embed cfg i doc).2.2 (pre ++ bad :: post)).2.2 =
        (ingest embed cfg (ingestDoc embed cfg i doc).2.2 (pre ++ post)).2.2
      exact h2
    · show (ingestDoc embed cfg i doc).2.1.toList ++
          (ingest embed cfg (ingestDoc embed cfg i doc).2.2 (pre ++ post)).2.1 =
        ((ingestDoc embed cfg i doc).2.1.toList ++ fsA) ++ fsB
      rw [hA, List.append_assoc]
    · show (ingestDoc embed cfg i doc).2.1.toList ++
          (ingest embed cfg (ingestDoc embed cfg i doc).2.2 (pre ++ bad :: post)).2.1 =
        ((ingestDoc embed cfg i doc).2.1.toList ++ fsA) ++
          (⟨bad.sourceId, cause⟩ : IngestFailure) :: fsB
      rw [hB, List.append_assoc]

/-- A two-character document that chunks and embeds successfully. -/
def docA : Document := ⟨['a', 'b'], 1, []⟩

/-- A zero-length document: it chunks to no fragments, and the test embedder
below fails on the empty batch. -/
def docB : Document := ⟨[], 2, []⟩

/-- A test embedding provider: unavailable on an empty batch, otherwise one
1-dimensional embedding per text. -/
def embedLen : List (List Char) → Except Error (List (List Int))
  | [] => Except.error Error.providerUnavailable
  | ts => Except.ok (ts.map (fun t => [(t.length : Int)]))

/-- C7 witness: ingesting [docA, docB] where docB's embedding fails yields
docA's count, docB's failure record, and the same index as ingesting docA
alone. -/
theorem ingest_per_document_failure_witness :
    (ingest embedLen ⟨4, 1⟩ idxEmpty ([docA] ++ docB :: [])).1 =
      (ingest embedLen ⟨4, 1⟩ idxEmpty ([docA] ++ [])).1 ∧
    (ingest embedLen ⟨4, 1⟩ idxEmpty ([docA] ++ docB :: [])).2.2 =
      (ingest embedLen ⟨4, 1⟩ idxEmpty ([docA] ++ [])).2.2 ∧
    ∃ fsA fsB,
      (ingest embedLen ⟨4, 1⟩ idxEmpty ([docA] ++ [])).2.1 = fsA ++ fsB ∧
      (ingest embedLen ⟨4, 1⟩ idxEmpty ([docA] ++ docB :: [])).2.1 =
        fsA ++ (⟨docB.sourceId, Error.providerUnavailable⟩ : IngestFailure) :: fsB :=
  ingest_per_document_failure embedLen ⟨4, 1⟩ idxEmpty [docA] [] docB
    Error.providerUnavailable rfl

/-- The chunking configuration of the notebook source:
RecursiveCharacterTextSplitter(chunk_size=2000, chunk_overlap=100). -/
def pipelineChunkConfig : ChunkConfig := ⟨2000, 100⟩

/-- The fixed retrieval depth of the notebook source: both retrieval call
sites pass k=10 literally; no caller-supplied k exists. -/
def pipelineK : Nat := 10

/-- The notebook's direct retrieval call,
vector_store.similarity_search(query, k=10). -/
def pipelineSimilaritySearch (i : VectorIndex) (q : List Int) :
    List (IndexEntry × Int) :=
  i.search q pipelineK

/-- The notebook's retriever wired into both generation chains,
vector_store.as_retriever(k=10). -/
def pipelineRetrieve (i : VectorIndex) (q : List Int) :
    List (IndexEntry × Int) :=
  i.search q pipelineK

/-- C10: both retrieval paths of the pipeline request the fixed depth
k = 10 — the depth is the program constant `pipelineK`, not a per-query
parameter — so the retrieved context always holds at most 10 fragments. -/
theorem pipeline_fixed_k_ten (i : VectorIndex) (q : List Int) :
    pipelineK = 10 ∧
    pipelineSimilaritySearch i q = i.search q 10 ∧
    pipelineRetrieve i q = i.search q 10 ∧
    (pipelineSimilaritySearch i q).length ≤ 10 ∧
    (pipelineRetrieve i q).length ≤ 10 := by
  have hlen : (i.search q 10).length ≤ 10 := by
    rw [VectorIndex.search]
    exact List.length_take_le 10 (i.rank q)
  exact ⟨rfl, rfl, rfl, hlen, hlen⟩

/-- The ten-character example document of spec section 8. -/
def docTen : Document :=
  ⟨['A', 'B', 'C', 'D', 'E', 'F', 'G', 'H', 'I', 'J'], 3, []⟩

example :
    Chunker.split docTen ⟨4, 1⟩ = Except.ok
      [⟨['A', 'B', 'C', 'D'], 3, 0, 4, []⟩,
       ⟨['D', 'E', 'F', 'G'], 3, 3, 7, []⟩,
       ⟨['G', 'H', 'I', 'J'], 3, 6, 10, []⟩] := rfl

/-- C1 witness: the specification's example document, chunkSize 4 and
overlap 1. -/
theorem split_contiguous_round_trip_witness :
    ∃ frags, Chunker.split docTen ⟨4, 1⟩ = Except.ok frags ∧
      (∀ f ∈ frags, f.startOffset < f.endOffset ∧ f.endOffset ≤ docTen.text.length ∧
        f.text = (docTen.text.drop f.startOffset).take (f.endOffset - f.startOffset)) ∧
      List.Chain' (fun f g =>
        g.startOffset + (⟨4, 1⟩ : ChunkConfig).overlap.toNat = f.endOffset) frags ∧
      Chunker.reassemble (⟨4, 1⟩ : ChunkConfig).overlap.toNat frags = docTen.text :=
  split_contiguous_round_trip docTen ⟨4, 1⟩ (by decide) (by decide)
